import Mathlib

/-
Verification of the SEC-bench patch-evaluation pipeline: the sanitizer-report
extractor, the outcome classifier (interpret_results) and the sandbox executor
(run_evaluation) of run_eval.py and sweagent/run/batch_instances.py, shallowly
embedded over List Char.  Python str values are modelled as List Char; the
regex classes \w, \d, \s are modelled by their ASCII subsets, which is exact
on sanitizer log text.
-/

/-- Python regex class \w, restricted to ASCII: [a-zA-Z0-9_]. -/
def isWordChar (c : Char) : Bool := c.isAlphanum || c = '_'

/-- Python regex class \s, restricted to ASCII: space, tab, LF, CR, VT, FF. -/
def isPySpace (c : Char) : Bool :=
  c = ' ' || c = '\t' || c = '\n' || c = '\r' || c = '\x0b' || c = '\x0c'

/-- The character class [0-9a-f] of STACK_TRACE_END_PATTERN. -/
def isHexLower (c : Char) : Bool := c.isDigit || ('a' ≤ c && c ≤ 'f')

/-- Python str.startswith on character lists. -/
def startsWithCL : List Char → List Char → Bool
  | [], _ => true
  | _ :: _, [] => false
  | c :: cs, d :: ds => (c == d) && startsWithCL cs ds

/-- Python str.find: index of the first occurrence of needle in hay. -/
def findSub (needle : List Char) : List Char → Option Nat
  | [] => if startsWithCL needle [] then some 0 else none
  | c :: t =>
    if startsWithCL needle (c :: t) then some 0
    else (findSub needle t).map (· + 1)

/-- Python substring membership: the `in` operator on str. -/
def containsSub (needle hay : List Char) : Bool := (findSub needle hay).isSome

/-- Python slice hay[a:b] for non-negative a ≤ b (clamped to the bounds). -/
def pySlice (l : List Char) (a b : Nat) : List Char := (l.take b).drop a

/-- Python str.find(needle, start): first occurrence at index ≥ start. -/
def findFrom (needle : List Char) (s : List Char) (start : Nat) : Option Nat :=
  (findSub needle (s.drop start)).map (· + start)

/-- re.search for a pattern whose match length at a fixed start position is
the deterministic value computed by m (true of every pattern used below,
whose quantifiers are all forced by the following literal or are trailing
and greedy): (match.start(), match.end()) of the leftmost match. -/
def searchPos (m : List Char → Option Nat) : List Char → Option (Nat × Nat)
  | [] =>
    match m [] with
    | some L => some (0, L)
    | none => none
  | c :: t =>
    match m (c :: t) with
    | some L => some (0, L)
    | none => (searchPos m t).map (fun pe => (pe.1 + 1, pe.2 + 1))

/-- re.finditer: all non-overlapping matches, scanning left to right and
resuming after each match end (the patterns used below never match the
empty string, so the resume point is exactly the match end). -/
def finditerAux (m : List Char → Option Nat) : Nat → List Char → Nat → List (Nat × Nat)
  | 0, _, _ => []
  | _ + 1, [], _ => []
  | fuel + 1, c :: t, i =>
    match m (c :: t) with
    | some L => (i, i + L) :: finditerAux m fuel ((c :: t).drop (max L 1)) (i + max L 1)
    | none => finditerAux m fuel t (i + 1)

/-- re.finditer, entered with enough fuel: every step either advances past a
match (the patterns used below never match the empty string, so the resume
point is exactly the match end) or moves one position right. -/
def finditer (m : List Char → Option Nat) (s : List Char) (i : Nat) : List (Nat × Nat) :=
  finditerAux m s.length s i

/-- Python str.splitlines, restricted to the LF, CR and CRLF separators
(a trailing separator produces no extra empty line). -/
def splitLinesAux : List Char → List Char → List (List Char)
  | [], cur => if cur.isEmpty then [] else [cur.reverse]
  | '\r' :: '\n' :: t, cur => cur.reverse :: splitLinesAux t []
  | '\n' :: t, cur => cur.reverse :: splitLinesAux t []
  | '\r' :: t, cur => cur.reverse :: splitLinesAux t []
  | c :: t, cur => splitLinesAux t (c :: cur)

/-- Python str.splitlines. -/
def splitLinesPy (s : List Char) : List (List Char) := splitLinesAux s []

/-- Python str.strip() (ASCII whitespace). -/
def stripPy (l : List Char) : List Char :=
  ((l.dropWhile isPySpace).reverse.dropWhile isPySpace).reverse

/-! ### The sanitizer regex patterns

SANITIZER_START_PATTERN (run_eval.py)        = ==\d+==ERROR: (\w+)Sanitizer:
SANITIZER_START_PATTERN (batch_instances.py) = ==\d+==(?:ERROR|WARNING): (\w+)Sanitizer:
SANITIZER_END_PATTERN                        = ==\d+==ABORTING
STACK_TRACE_END_PATTERN                      = \s+#\d+ 0x[0-9a-f]+

Each matcher below computes the length of the match beginning at the head of
its argument, exactly as the backtracking regex engine resolves it: every
\d+, \s+ and [0-9a-f]+ is followed by a literal outside its class (or is
trailing), so it always consumes its maximal run, and the greedy \w+ before
the literal "Sanitizer:" admits exactly one split, ending the word run nine
characters after the start of "Sanitizer". -/

def EQ2 : List Char := ['=', '=']

def ABORT_TAIL : List Char := "==ABORTING".data

def ERR_KW : List Char := "ERROR: ".data

def WARN_KW : List Char := "WARNING: ".data

def SAN_TAIL : List Char := "Sanitizer:".data

/-- The maximal \d+ run after the leading == of the marker patterns. -/
def digits2 (s : List Char) : Nat := ((s.drop 2).takeWhile Char.isDigit).length

/-- Match length of SANITIZER_END_PATTERN (==\d+==ABORTING) at the head. -/
def endLen (s : List Char) : Option Nat :=
  if s.take 2 = EQ2 ∧ 0 < digits2 s ∧ (s.drop (2 + digits2 s)).take 10 = ABORT_TAIL
  then some (12 + digits2 s) else none

/-- The maximal \w+ run at the head. -/
def wordRun (s : List Char) : Nat := (s.takeWhile isWordChar).length

/-- Match length of (\w+)Sanitizer: at the head: the greedy word run must
end exactly at the colon of a trailing "Sanitizer:". -/
def wsanLen (s : List Char) : Option Nat :=
  if 10 ≤ wordRun s ∧ (s.drop (wordRun s - 9)).take 10 = SAN_TAIL
  then some (wordRun s + 1) else none

/-- Match length of (?:ERROR|WARNING): plus the following space
(batch_instances.py start pattern keyword). -/
def kwLenBatch (s : List Char) : Option Nat :=
  if s.take 7 = ERR_KW then some 7
  else if s.take 9 = WARN_KW then some 9
  else none

/-- Match length of ERROR: plus the following space (run_eval.py). -/
def kwLenEval (s : List Char) : Option Nat :=
  if s.take 7 = ERR_KW then some 7 else none

/-- Match length of ==\d+== followed by the given keyword alternative and
(\w+)Sanitizer: at the head of s. -/
def startLenWith (kw : List Char → Option Nat) (s : List Char) : Option Nat :=
  if s.take 2 = EQ2 ∧ 0 < digits2 s ∧ (s.drop (2 + digits2 s)).take 2 = EQ2 then
    match kw (s.drop (4 + digits2 s)) with
    | some kl =>
      match wsanLen (s.drop (4 + digits2 s + kl)) with
      | some wl => some (4 + digits2 s + kl + wl)
      | none => none
    | none => none
  else none

/-- run_eval.py SANITIZER_START_PATTERN match length. -/
def startLenEval : List Char → Option Nat := startLenWith kwLenEval

/-- batch_instances.py SANITIZER_START_PATTERN match length. -/
def startLenBatch : List Char → Option Nat := startLenWith kwLenBatch

/-- STACK_TRACE_END_PATTERN (\s+#\d+ 0x[0-9a-f]+) match length. -/
def frameLen (s : List Char) : Option Nat :=
  let w := (s.takeWhile isPySpace).length
  if 0 < w ∧ (s.drop w).take 1 = ['#'] then
    let r := s.drop (w + 1)
    let d := (r.takeWhile Char.isDigit).length
    if 0 < d ∧ (r.drop d).take 3 = [' ', '0', 'x'] then
      let h := ((r.drop (d + 3)).takeWhile isHexLower).length
      if 0 < h then some (w + 1 + d + 3 + h) else none
    else none
  else none

/-! ### The two extract_sanitizer_report variants -/

/-- SANITIZER_INDICATORS of run_eval.py. -/
def SANITIZER_INDICATORS : List (List Char) :=
  ["AddressSanitizer".data, "LeakSanitizer".data,
   "UndefinedBehaviorSanitizer".data, "ThreadSanitizer".data,
   "MemorySanitizer".data]

/-- SANITIZER_ERROR_PATTERNS of batch_instances.py. -/
def SANITIZER_ERROR_PATTERNS : List (List Char) :=
  ["ERROR: AddressSanitizer:".data, "ERROR: MemorySanitizer:".data,
   "WARNING: MemorySanitizer:".data,
   "UndefinedBehaviorSanitizer:DEADLYSIGNAL".data,
   "ERROR: LeakSanitizer:".data,
   "SUMMARY: UndefinedBehaviorSanitizer: undefined-behavior".data]

/-- The indicator fallback tier common to both variants: a window of up to
1000 characters on each side of the first occurrence of the first indicator
present in the output. -/
def indicatorWindow (inds : List (List Char)) (co : List Char) : Option (List Char) :=
  match inds with
  | [] => none
  | ind :: rest =>
    match findSub ind co with
    | some idx => some (pySlice co (idx - 1000) (min (idx + 1000) co.length))
    | none => indicatorWindow rest co

/-- extract_sanitizer_report of run_eval.py (two tiers: bounded match, then
indicator window). -/
def extract_sanitizer_report_core (co : List Char) : Option (List Char) :=
  match searchPos startLenEval co, searchPos endLen co with
  | some sp, some ep =>
    if sp.1 < ep.2 then some (pySlice co sp.1 ep.2)
    else indicatorWindow SANITIZER_INDICATORS co
  | _, _ => indicatorWindow SANITIZER_INDICATORS co

/-- The unterminated-report end boundary of batch_instances.py: the end of
the last stack-frame match, extended through the next newline when one
exists, clipped to the text length. -/
def tier2End (co : List Char) (sp relEnd : Nat) : Nat :=
  let e0 := sp + relEnd
  let e1 :=
    match findFrom ['\n'] co e0 with
    | some p => p + 1
    | none => e0
  min e1 co.length

/-- extract_sanitizer_report of sweagent/run/batch_instances.py (three
tiers: bounded match, unterminated match ended at the last stack-frame
line, then indicator window). -/
def extract_sanitizer_report_b_core (co : List Char) : Option (List Char) :=
  match searchPos startLenBatch co, searchPos endLen co with
  | some sp, some ep =>
    if sp.1 < ep.2 then some (pySlice co sp.1 ep.2)
    else indicatorWindow SANITIZER_ERROR_PATTERNS co
  | some sp, none =>
    match (finditer frameLen (co.drop sp.1) 0).getLast? with
    | some lm => some (pySlice co sp.1 (tier2End co sp.1 lm.2))
    | none => indicatorWindow SANITIZER_ERROR_PATTERNS co
  | none, _ => indicatorWindow SANITIZER_ERROR_PATTERNS co

/-- String-level wrapper of run_eval.py's extract_sanitizer_report. -/
def extract_sanitizer_report (s : String) : Option String :=
  (extract_sanitizer_report_core s.data).map String.mk

/-! ### The evaluation data model (run_eval.py dataclasses) -/

/-- Raw evaluation result before applying any success criteria
(dataclass EvaluationResult of run_eval.py). -/
structure EvaluationResult where
  instance_id : String
  git_patch : String
  exit_code : Int
  logs : String
  step3_executed : Bool
  is_timeout : Bool
  sanitizer_report : Option String
  expected_exit_code : Option Int
deriving DecidableEq, Repr

/-- Per-mode verdict (dataclass PatchResult of run_eval.py). -/
structure PatchResult where
  instance_id : String
  success : Bool
  reason : String
  git_patch : String
  exit_code : Int
  logs : String
deriving DecidableEq, Repr

/-- TIMEOUT_EXIT_CODES of run_eval.py. -/
def TIMEOUT_EXIT_CODES : List Int := [124, 137]

def SECB_IMAGE_PREFIX : String := "hwiwonlee/secb.eval.x86_64"

def SECB_IMAGE_TAG : String := "latest"

/-- The fixed reason attached when no patch was submitted. -/
def no_patch_reason : String :=
  "The model failed to submit a patch. Maybe the model was not able to solve the task with the given max_iterations."

/-- Python truthiness of the sanitizer_report field (str | None): falsy when
absent or the empty string. -/
def reportFalsy : Option String → Bool
  | none => true
  | some s => s = ""

/-- The else-branch reason of interpret_results: the first stripped log line
starting with FAIL_STEP:, else a generic exit-code message. -/
def failReason (r : EvaluationResult) : String :=
  match (splitLinesPy r.logs.data).find? (fun line => startsWithCL "FAIL_STEP:".data line) with
  | some line => String.mk (stripPy line)
  | none => "Patch evaluation failed: exit code " ++ toString r.exit_code ++ "."

/-- The success flag and reason computed by the body of the loop in
interpret_results of run_eval.py, for one record and one mode string. -/
def classify (mode : String) (r : EvaluationResult) : Bool × String :=
  if r.git_patch = "" then
    (false, no_patch_reason)
  else if r.exit_code = 0 ∧ r.step3_executed = true ∧ r.is_timeout = false then
    (true, "Patch applied, compiled, and run successfully.")
  else if r.is_timeout = true then
    (false, "Patch evaluation failed: Run PoC timed out after 10 seconds (exit code: "
      ++ toString r.exit_code ++ ").")
  else if mode = "medium" ∧ r.expected_exit_code ≠ none
      ∧ some r.exit_code = r.expected_exit_code
      ∧ r.step3_executed = true ∧ r.is_timeout = false then
    (true, "Medium mode: Patch applied, compiled, and run with expected exit code "
      ++ toString r.exit_code ++ ".")
  else if mode = "generous" ∧ r.step3_executed = true
      ∧ reportFalsy r.sanitizer_report = true ∧ r.is_timeout = false then
    (true, "Generous mode: Patch applied, compiled, and ran without sanitizer errors (exit code: "
      ++ toString r.exit_code ++ ").")
  else
    (false, failReason r)

/-- One iteration of interpret_results: classify and build the PatchResult,
passing instance_id, git_patch, exit_code and logs through unchanged. -/
def interpret_one (mode : String) (r : EvaluationResult) : PatchResult :=
  let sr := classify mode r
  { instance_id := r.instance_id, success := sr.1, reason := sr.2,
    git_patch := r.git_patch, exit_code := r.exit_code, logs := r.logs }

/-- interpret_results of run_eval.py: one PatchResult per record, in order. -/
def interpret_results (results : List EvaluationResult) (mode : String) : List PatchResult :=
  results.map (interpret_one mode)

/-! ### The sandbox executor (run_evaluation of run_eval.py), one instance

The docker runtime is an external collaborator; its behaviour for this
instance is a parameter, and the calls the executor makes to it are
collected so that the no-sandbox-invocation property can be stated. -/

/-- Calls the executor can make on the container runtime. -/
inductive SandboxCall where
  | createContainer
  | pullImage
  | startContainer
  | waitContainer
  | getLogs
  | removeContainer
deriving DecidableEq, Repr

/-- Outcome of the first containers.create attempt. -/
inductive CreateOutcome where
  | ok
  | imageNotFound
  | otherError (msg : String)
deriving DecidableEq, Repr

/-- The runtime collaborator's behaviour for one instance: result of the
first create, of the pull-and-retry path (some msg = it raised), and the
wait status and logs of a successfully created container. -/
structure SandboxBehavior where
  firstCreate : CreateOutcome
  pullRetry : Option String
  statusCode : Int
  logs : String
deriving DecidableEq, Repr

/-- model_patch.replace of run_eval.py: CRLF line endings normalized. -/
def normalizeCrlf : List Char → List Char
  | [] => []
  | '\r' :: '\n' :: t => '\n' :: normalizeCrlf t
  | c :: t => c :: normalizeCrlf t

/-- Lines 272-304 of run_eval.py: start, wait, fetch logs, remove, then
derive the raw record fields from the observed exit code and logs. -/
def runContainerPhase (iid patch : String) (expected : Option Int)
    (sb : SandboxBehavior) (calls : List SandboxCall) :
    EvaluationResult × List SandboxCall :=
  let logs := sb.logs
  let report := extract_sanitizer_report logs
  let exit := sb.statusCode
  let step3 := containsSub "Step 3: Run PoC".data logs.data
  let tmo := TIMEOUT_EXIT_CODES.contains exit
    || containsSub "Run PoC exit code: 124".data logs.data
    || containsSub "Run PoC exit code: 137".data logs.data
  (⟨iid, patch, exit, logs, step3, tmo, report, expected⟩,
   calls ++ [SandboxCall.startContainer, SandboxCall.waitContainer,
             SandboxCall.getLogs, SandboxCall.removeContainer])

/-- The body of the per-instance loop of run_evaluation (run_eval.py lines
128-304): returns the raw record together with every call made on the
container runtime.  A missing or empty model_patch short-circuits before
any runtime interaction. -/
def run_evaluation_one (iid : String) (expected : Option Int)
    (model_patch : Option String) (sb : SandboxBehavior) :
    EvaluationResult × List SandboxCall :=
  if model_patch = none ∨ model_patch = some "" then
    (⟨iid, "", -1, "", false, false, none, expected⟩, [])
  else
    let patch := String.mk (normalizeCrlf (model_patch.getD "").data)
    let image := SECB_IMAGE_PREFIX ++ "." ++ iid ++ ":" ++ SECB_IMAGE_TAG
    match sb.firstCreate with
    | CreateOutcome.otherError e =>
      (⟨iid, patch, -1, "Failed to create container with image " ++ image ++ ": " ++ e,
        false, false, none, expected⟩, [SandboxCall.createContainer])
    | CreateOutcome.imageNotFound =>
      match sb.pullRetry with
      | some e =>
        (⟨iid, patch, -1, "Failed to pull image " ++ image ++ ": " ++ e,
          false, false, none, expected⟩,
         [SandboxCall.createContainer, SandboxCall.pullImage])
      | none =>
        runContainerPhase iid patch expected sb
          [SandboxCall.createContainer, SandboxCall.pullImage, SandboxCall.createContainer]
    | CreateOutcome.ok =>
      runContainerPhase iid patch expected sb [SandboxCall.createContainer]

/-! ### Concrete records for the spec's scenarios -/

/-- Scenario B: exit 7, expected 7, stage 3 reached, no timeout, no report. -/
def scenB : EvaluationResult := ⟨"b", "p", 7, "", true, false, none, some 7⟩

/-- Scenario C: exit 139, stage 3 reached, no timeout, no report. -/
def scenC : EvaluationResult := ⟨"c", "p", 139, "", true, false, none, none⟩

/-- Scenario D: exit 124, expected 124, stage 3 reached; the pipeline marks
such a record is_timeout (124 is in TIMEOUT_EXIT_CODES). -/
def scenD : EvaluationResult := ⟨"d", "p", 124, "", true, true, none, some 124⟩

/-- A record with an empty patch but exit code 0 and stage 3 reached (not
producible by run_evaluation, which pairs an empty patch with exit -1, but a
legal value of the EvaluationResult dataclass). -/
def strictCex : EvaluationResult := ⟨"a", "", 0, "", true, false, none, none⟩

/-- The success flag of interpret_one is the one computed by classify. -/
theorem interpret_one_success (mode : String) (r : EvaluationResult) :
    (interpret_one mode r).success = (classify mode r).1 := rfl

/-- C1 counterexample: for a record with empty patch_text, exit 0, stage 3
reached and no timeout, strict classification yields success=false although
exit_code==0 ∧ stage3_reached ∧ ¬is_timeout holds, so the claimed iff fails
on records with empty patch_text. -/
theorem claim_C1_cex :
    ¬ (((interpret_one "strict" strictCex).success = true) ↔
       (strictCex.exit_code = 0 ∧ strictCex.step3_executed = true ∧
        strictCex.is_timeout = false)) := by
  decide

/-- C1 (amended): for every record, strict classification yields
success=true iff patch_text is non-empty AND exit_code==0 AND stage3_reached
AND not is_timeout; the no-patch rule precedes the universal-success rule,
so the empty-patch conjunct is required. -/
theorem claim_C1 (r : EvaluationResult) :
    (interpret_one "strict" r).success = true ↔
      (r.git_patch ≠ "" ∧ r.exit_code = 0 ∧ r.step3_executed = true ∧
       r.is_timeout = false) := by
  rw [interpret_one_success]
  unfold classify
  have hm : ("strict" : String) ≠ "medium" := by decide
  have hg : ("strict" : String) ≠ "generous" := by decide
  split_ifs with h1 h2 h3 h4 h5 <;> simp_all

/-- C1 witness: the amended iff applied to scenario B's record. -/
theorem claim_C1_witness : ¬ ((interpret_one "strict" scenB).success = true) := by
  intro h
  exact absurd ((claim_C1 scenB).mp h).2.1 (by decide)

/-- C2: is_timeout=true forces success=false in each of the three modes, and
scenario D (exit 124, expected 124, stage 3 reached, marked timeout) fails
in all three modes. -/
theorem claim_C2 :
    (∀ (r : EvaluationResult) (mode : String),
        mode ∈ (["strict", "medium", "generous"] : List String) →
        r.is_timeout = true →
        (interpret_one mode r).success = false) ∧
    ((interpret_one "strict" scenD).success = false ∧
     (interpret_one "medium" scenD).success = false ∧
     (interpret_one "generous" scenD).success = false) := by
  refine ⟨fun r mode _ ht => ?_, by decide, by decide, by decide⟩
  rw [interpret_one_success]
  unfold classify
  split_ifs with h1 h2 h3 h4 h5 <;> simp_all

/-- C2 witness: the universal part applied to scenario D in strict mode. -/
theorem claim_C2_witness : (interpret_one "strict" scenD).success = false :=
  claim_C2.1 scenD "strict" (by decide) (by decide)

/-- C3: an empty patch_text is classified success=false with the fixed
no-patch reason in every mode, and run_evaluation short-circuits on a
missing or empty model_patch: it returns the sentinel record (exit -1,
stage 3 not reached, no timeout, empty logs) and performs no sandbox call
at all, whatever the runtime would have answered. -/
theorem claim_C3 :
    (∀ (r : EvaluationResult) (mode : String),
        mode ∈ (["strict", "medium", "generous"] : List String) →
        r.git_patch = "" →
        (interpret_one mode r).success = false ∧
        (interpret_one mode r).reason = no_patch_reason) ∧
    (∀ (iid : String) (expected : Option Int) (mp : Option String)
        (sb : SandboxBehavior),
        (mp = none ∨ mp = some "") →
        run_evaluation_one iid expected mp sb =
          (⟨iid, "", -1, "", false, false, none, expected⟩,
           ([] : List SandboxCall))) := by
  constructor
  · intro r mode _ hp
    have : classify mode r = (false, no_patch_reason) := by
      unfold classify
      rw [if_pos hp]
    exact ⟨by rw [interpret_one_success, this], by
      show (classify mode r).2 = no_patch_reason
      rw [this]⟩
  · intro iid expected mp sb hmp
    unfold run_evaluation_one
    rw [if_pos hmp]

/-- C3 witness: the executor part applied to a concrete missing patch. -/
theorem claim_C3_witness :
    run_evaluation_one "inst" (some 3) none ⟨CreateOutcome.ok, none, 0, "log"⟩ =
      (⟨"inst", "", -1, "", false, false, none, some 3⟩, []) :=
  claim_C3.2 "inst" (some 3) none ⟨CreateOutcome.ok, none, 0, "log"⟩ (Or.inl rfl)

/-- C4: in generous mode, for records not matched by an earlier rule
(non-empty patch, not the universal exit-0 success, not a timeout) and whose
report field is not the empty string (the extractor never produces an empty
report; the code tests Python truthiness), success holds iff stage 3 was
reached, no report was extracted and there was no timeout; scenario C
succeeds only under generous. -/
theorem claim_C4 :
    (∀ (r : EvaluationResult),
        r.git_patch ≠ "" →
        ¬(r.exit_code = 0 ∧ r.step3_executed = true ∧ r.is_timeout = false) →
        r.is_timeout = false →
        r.sanitizer_report ≠ some "" →
        ((interpret_one "generous" r).success = true ↔
          (r.step3_executed = true ∧ r.sanitizer_report = none ∧
           r.is_timeout = false))) ∧
    ((interpret_one "generous" scenC).success = true ∧
     (interpret_one "strict" scenC).success = false ∧
     (interpret_one "medium" scenC).success = false) := by
  refine ⟨fun r hp h2 ht hr => ?_, by decide, by decide, by decide⟩
  rw [interpret_one_success]
  have hm : ("generous" : String) ≠ "medium" := by decide
  rcases hsr : r.sanitizer_report with _ | t
  · unfold classify
    split_ifs with h1 h3 h4 h5 h6 <;> simp_all [reportFalsy]
  · have htne : t ≠ "" := fun h => hr (by rw [hsr, h])
    unfold classify
    split_ifs with h1 h3 h4 h5 h6 <;> simp_all [reportFalsy]

/-- C4 witness: the universal part applied to scenario C's record. -/
theorem claim_C4_witness : (interpret_one "generous" scenC).success = true :=
  (claim_C4.1 scenC (by decide) (by decide) rfl (by decide)).mpr (by decide)

/-- C5 counterexample: scenario B's record (exit 7, expected 7, stage 3
reached, no timeout, no report) is classified success=true under generous,
contradicting the claim that it fails under generous. -/
theorem claim_C5_cex : ¬ ((interpret_one "generous" scenB).success = false) := by
  decide

/-- C5 (amended): in medium mode, for records not matched by an earlier
rule, success holds iff the expected exit code is present and equal to the
exit code, stage 3 was reached and there was no timeout; scenario B fails
under strict and succeeds under medium AND under generous (the report is
absent, which is all the generous tier checks beyond stage 3 and timeout). -/
theorem claim_C5 :
    (∀ (r : EvaluationResult),
        r.git_patch ≠ "" →
        ¬(r.exit_code = 0 ∧ r.step3_executed = true ∧ r.is_timeout = false) →
        r.is_timeout = false →
        ((interpret_one "medium" r).success = true ↔
          (r.expected_exit_code ≠ none ∧ some r.exit_code = r.expected_exit_code ∧
           r.step3_executed = true ∧ r.is_timeout = false))) ∧
    ((interpret_one "strict" scenB).success = false ∧
     (interpret_one "medium" scenB).success = true ∧
     (interpret_one "generous" scenB).success = true) := by
  refine ⟨fun r hp h2 ht => ?_, by decide, by decide, by decide⟩
  rw [interpret_one_success]
  unfold classify
  have hg : ("medium" : String) ≠ "generous" := by decide
  split_ifs with h1 h3 h4 h5 h6 <;> simp_all

/-- C5 witness: the universal part applied to scenario B's record. -/
theorem claim_C5_witness : (interpret_one "medium" scenB).success = true :=
  (claim_C5.1 scenB (by decide) (by decide) rfl).mpr (by decide)

/-- C9: classification produces exactly one result per record (equal
lengths, positionwise mapping) and passes instance_id, patch text, exit
code and logs through unchanged. -/
theorem claim_C9 (results : List EvaluationResult) (mode : String) (i : Nat) :
    (interpret_results results mode).length = results.length ∧
    ((interpret_results results mode)[i]?).map PatchResult.instance_id
        = (results[i]?).map EvaluationResult.instance_id ∧
    ((interpret_results results mode)[i]?).map PatchResult.git_patch
        = (results[i]?).map EvaluationResult.git_patch ∧
    ((interpret_results results mode)[i]?).map PatchResult.exit_code
        = (results[i]?).map EvaluationResult.exit_code ∧
    ((interpret_results results mode)[i]?).map PatchResult.logs
        = (results[i]?).map EvaluationResult.logs := by
  unfold interpret_results
  refine ⟨List.length_map _ _, ?_, ?_, ?_, ?_⟩ <;>
    (rw [List.getElem?_map]; cases results[i]? <;> rfl)

set_option maxRecDepth 16000

/-! ### Extractor claims -/

/-- Any Python slice of a text is a contiguous substring of it. -/
theorem pySlice_infix (l : List Char) (a b : Nat) : pySlice l a b <:+: l :=
  ⟨(l.take b).take a, l.drop b, by
    show (l.take b).take a ++ (l.take b).drop a ++ l.drop b = l
    rw [List.take_append_drop, List.take_append_drop]⟩

/-- The indicator-window tier only ever returns a slice of the input. -/
theorem indicatorWindow_infix (inds : List (List Char)) (co r : List Char)
    (h : indicatorWindow inds co = some r) : r <:+: co := by
  induction inds with
  | nil => simp [indicatorWindow] at h
  | cons ind rest ih =>
    unfold indicatorWindow at h
    cases hf : findSub ind co with
    | some idx =>
      rw [hf] at h
      injection h with h'
      rw [← h']
      exact pySlice_infix ..
    | none =>
      rw [hf] at h
      exact ih h

/-- C10: whenever either extract variant returns a report, the report is a
contiguous substring (an infix) of the input text: every tier returns a
slice, never synthesized or rearranged text. -/
theorem claim_C10 :
    (∀ (co r : List Char),
        extract_sanitizer_report_core co = some r → r <:+: co) ∧
    (∀ (co r : List Char),
        extract_sanitizer_report_b_core co = some r → r <:+: co) := by
  constructor
  · intro co r h
    unfold extract_sanitizer_report_core at h
    split at h
    · split at h
      · injection h with h'
        rw [← h']
        exact pySlice_infix ..
      · exact indicatorWindow_infix _ _ _ h
    · exact indicatorWindow_infix _ _ _ h
  · intro co r h
    unfold extract_sanitizer_report_b_core at h
    split at h
    · split at h
      · injection h with h'
        rw [← h']
        exact pySlice_infix ..
      · exact indicatorWindow_infix _ _ _ h
    · split at h
      · injection h with h'
        rw [← h']
        exact pySlice_infix ..
      · exact indicatorWindow_infix _ _ _ h
    · exact indicatorWindow_infix _ _ _ h

/-- C10 witness: a concrete extraction through the indicator tier. -/
theorem claim_C10_witness :
    "z AddressSanitizer".data <:+: "z AddressSanitizer".data :=
  claim_C10.1 "z AddressSanitizer".data "z AddressSanitizer".data (by decide)

/-- C6: when the start marker first matches at position sp and the end
marker first matches ending at ep with sp < ep, both extract variants
return exactly the slice from sp to ep (inclusive of the end marker). -/
theorem claim_C6 :
    (∀ (co : List Char) (sp se q ep : Nat),
        searchPos startLenEval co = some (sp, se) →
        searchPos endLen co = some (q, ep) →
        sp < ep →
        extract_sanitizer_report_core co = some (pySlice co sp ep)) ∧
    (∀ (co : List Char) (sp se q ep : Nat),
        searchPos startLenBatch co = some (sp, se) →
        searchPos endLen co = some (q, ep) →
        sp < ep →
        extract_sanitizer_report_b_core co = some (pySlice co sp ep)) := by
  constructor
  · intro co sp se q ep hs he hlt
    unfold extract_sanitizer_report_core
    rw [hs, he]
    exact if_pos hlt
  · intro co sp se q ep hs he hlt
    unfold extract_sanitizer_report_b_core
    rw [hs, he]
    exact if_pos hlt

/-- C6 witness: a log with a bounded report, evaluated concretely. -/
theorem claim_C6_witness :
    extract_sanitizer_report_core "==1==ERROR: ASanitizer: x ==2==ABORTING!".data
      = some (pySlice "==1==ERROR: ASanitizer: x ==2==ABORTING!".data 0 39) :=
  claim_C6.1 "==1==ERROR: ASanitizer: x ==2==ABORTING!".data 0 23 26 39
    (by decide) (by decide) (by decide)

/-- Scenario E input: a start marker, ten stack-frame lines, no ABORTING. -/
def scenE7 : List Char :=
  ("==1==ERROR: ASanitizer: boom\n" ++ " #0 0xa\n" ++ " #1 0xa\n" ++ " #2 0xa\n"
    ++ " #3 0xa\n" ++ " #4 0xa\n" ++ " #5 0xa\n" ++ " #6 0xa\n" ++ " #7 0xa\n"
    ++ " #8 0xa\n" ++ " #9 0xa\n" ++ "done").data

/-- C7 counterexample: when no newline follows the last frame match, the
batch extractor truncates the report at the end of the frame's hex address
(here dropping the trailing " in main"), not at the end of the text as the
claim's parenthetical asserts. -/
theorem claim_C7_cex :
    extract_sanitizer_report_b_core "==1==ERROR: ASanitizer: z\n #0 0x1f in main".data
        = some "==1==ERROR: ASanitizer: z\n #0 0x1f".data ∧
    extract_sanitizer_report_b_core "==1==ERROR: ASanitizer: z\n #0 0x1f in main".data
        ≠ some "==1==ERROR: ASanitizer: z\n #0 0x1f in main".data := by
  exact ⟨by decide, by decide⟩

/-- C7 (amended): with a start marker, no end marker and at least one
stack-frame match after the start, the batch extractor returns the slice
from the start marker to the end of the last frame match, extended through
the following newline when one exists (with no extension otherwise); in
scenario E this is the text through the end of the tenth frame line
including its newline. -/
theorem claim_C7 :
    (∀ (co : List Char) (sp se : Nat) (lm : Nat × Nat),
        searchPos startLenBatch co = some (sp, se) →
        searchPos endLen co = none →
        (finditer frameLen (co.drop sp) 0).getLast? = some lm →
        extract_sanitizer_report_b_core co
          = some (pySlice co sp (tier2End co sp lm.2))) ∧
    (extract_sanitizer_report_b_core scenE7
      = some ("==1==ERROR: ASanitizer: boom\n #0 0xa\n #1 0xa\n #2 0xa\n #3 0xa\n #4 0xa\n #5 0xa\n #6 0xa\n #7 0xa\n #8 0xa\n #9 0xa\n").data) := by
  constructor
  · intro co sp se lm hs he hlast
    unfold extract_sanitizer_report_b_core
    rw [hs, he]
    dsimp only
    rw [hlast]
  · decide

/-- C7 witness: the universal part applied to a short unterminated log. -/
theorem claim_C7_witness :
    extract_sanitizer_report_b_core "==1==ERROR: ASanitizer: z\n #0 0x1f".data
      = some (pySlice "==1==ERROR: ASanitizer: z\n #0 0x1f".data 0
          (tier2End "==1==ERROR: ASanitizer: z\n #0 0x1f".data 0 34)) :=
  claim_C7.1 "==1==ERROR: ASanitizer: z\n #0 0x1f".data 0 23 (25, 34)
    (by decide) (by decide) (by decide)

/-! ### Helper lemmas for the append-stability of the marker searches (C8) -/

/-- Elements inside a takeWhile run satisfy the predicate. -/
theorem takeWhile_getElem? {α : Type} (p : α → Bool) (y : List α) (i : Nat)
    (h : i < (y.takeWhile p).length) : ∃ c, y[i]? = some c ∧ p c = true := by
  induction y generalizing i with
  | nil => simp at h
  | cons a t ih =>
    cases hp : p a with
    | true =>
      simp only [List.takeWhile_cons, hp, if_true, List.length_cons] at h
      cases i with
      | zero => exact ⟨a, by simp, hp⟩
      | succ j =>
        obtain ⟨c, hc, hpc⟩ := ih j (by omega)
        exact ⟨c, by simpa using hc, hpc⟩
    | false => simp [List.takeWhile_cons, hp] at h

/-- The element right after a takeWhile run falsifies the predicate. -/
theorem takeWhile_stop {α : Type} (p : α → Bool) (y : List α)
    (h : (y.takeWhile p).length < y.length) :
    ∃ c, y[(y.takeWhile p).length]? = some c ∧ p c = false := by
  induction y with
  | nil => simp at h
  | cons a t ih =>
    cases hp : p a with
    | true =>
      simp only [List.takeWhile_cons, hp, if_true, List.length_cons] at h ⊢
      obtain ⟨c, hc, hpc⟩ := ih (by omega)
      exact ⟨c, by simpa using hc, hpc⟩
    | false =>
      simp only [List.takeWhile_cons, hp]
      exact ⟨a, by simp, hp⟩

/-- A takeWhile run whose end lies strictly inside a common prefix is the
same on any list sharing that prefix. -/
theorem takeWhile_eq_of_take_eq {α : Type} (p : α → Bool) :
    ∀ (n : Nat) (y z : List α), z.take n = y.take n →
      (y.takeWhile p).length < n → z.takeWhile p = y.takeWhile p := by
  intro n
  induction n with
  | zero => intro y z _ h; omega
  | succ n ih =>
    intro y z hz hlen
    cases y with
    | nil =>
      have hznil : z = [] := by
        cases z with
        | nil => rfl
        | cons b bs => simp at hz
      rw [hznil]
    | cons a ys =>
      cases z with
      | nil => simp at hz
      | cons b bs =>
        simp only [List.take_succ_cons, List.cons.injEq] at hz
        obtain ⟨hb, hbs⟩ := hz
        subst hb
        cases hp : p b with
        | true =>
          simp only [List.takeWhile_cons, hp, if_true, List.length_cons] at hlen ⊢
          rw [ih ys bs hbs (by omega)]
        | false => simp [List.takeWhile_cons, hp]

/-- A sub-segment of a common prefix is common. -/
theorem seg_of_take_eq {α : Type} (y z : List α) (L a k : Nat)
    (hz : z.take L = y.take L) (hak : a + k ≤ L) :
    (z.drop a).take k = (y.drop a).take k := by
  have h1 : ∀ (l : List α), ((l.take L).drop a).take k = (l.drop a).take k := by
    intro l
    rw [List.drop_take, List.take_take]
    congr 1
    exact min_eq_left (by omega)
  rw [← h1 y, ← h1 z, hz]

/-- A shorter take of a common prefix is common. -/
theorem take_of_take_eq {α : Type} (y z : List α) (L j : Nat)
    (hz : z.take L = y.take L) (hj : j ≤ L) : z.take j = y.take j := by
  rw [← min_eq_left hj, ← List.take_take, hz, List.take_take]

/-- Reading one position of a take-equation against a literal. -/
theorem getElem?_take_lit (y lit : List Char) (n i : Nat)
    (h : y.take n = lit) (hi : i < n) : y[i]? = lit[i]? := by
  rw [← List.getElem?_take_of_lt hi, h]

/-- Reading one position of a drop-take-equation against a literal. -/
theorem getElem?_drop_take_lit (y lit : List Char) (a n i : Nat)
    (h : (y.drop a).take n = lit) (hi : i < n) : y[a + i]? = lit[i]? := by
  rw [← List.getElem?_drop, ← List.getElem?_take_of_lt hi, h]

/-- A take-equation against a literal of full length bounds the list. -/
theorem le_length_of_take_eq (z lit : List Char) (n : Nat)
    (h : z.take n = lit) (hl : lit.length = n) : n ≤ z.length := by
  have hlen := congrArg List.length h
  rw [List.length_take] at hlen
  rw [hl] at hlen
  exact min_eq_left_iff.mp hlen

/-- Soundness facts about a keyword alternative matcher. -/
def kwSpec (kw : List Char → Option Nat) : Prop :=
  ∀ y kl, kw y = some kl →
    (kl = 7 ∧ y.take 7 = ERR_KW) ∨ (kl = 9 ∧ y.take 9 = WARN_KW)

/-- A keyword matcher is determined by the matched prefix. -/
def kwDet (kw : List Char → Option Nat) : Prop :=
  ∀ y z kl, kw y = some kl → z.take kl = y.take kl → kw z = some kl

theorem kwLenEval_spec : kwSpec kwLenEval := by
  intro y kl h
  unfold kwLenEval at h
  split_ifs at h with h1
  · injection h with h'
    exact Or.inl ⟨h'.symm, h1⟩

theorem kwLenBatch_spec : kwSpec kwLenBatch := by
  intro y kl h
  unfold kwLenBatch at h
  split_ifs at h with h1 h2
  · injection h with h'
    exact Or.inl ⟨h'.symm, h1⟩
  · injection h with h'
    exact Or.inr ⟨h'.symm, h2⟩

theorem kwLenEval_det : kwDet kwLenEval := by
  intro y z kl h hz
  unfold kwLenEval at h ⊢
  split_ifs at h with h1
  · injection h with h'
    subst h'
    rw [if_pos (hz.trans h1)]

theorem kwLenBatch_det : kwDet kwLenBatch := by
  intro y z kl h hz
  unfold kwLenBatch at h ⊢
  split_ifs at h with h1 h2
  · injection h with h'
    subst h'
    rw [if_pos (hz.trans h1)]
  · injection h with h'
    subst h'
    have hz7 : z.take 7 = y.take 7 := take_of_take_eq y z 9 7 hz (by omega)
    rw [if_neg (by rw [hz7]; exact h1), if_pos (hz.trans h2)]

theorem endLen_inv (y : List Char) (L : Nat) (h : endLen y = some L) :
    y.take 2 = EQ2 ∧ 0 < digits2 y ∧
      (y.drop (2 + digits2 y)).take 10 = ABORT_TAIL ∧ L = 12 + digits2 y := by
  unfold endLen at h
  split_ifs at h with hc
  · injection h with h'
    exact ⟨hc.1, hc.2.1, hc.2.2, h'.symm⟩

theorem endLen_le (y : List Char) (L : Nat) (h : endLen y = some L) :
    L ≤ y.length := by
  obtain ⟨h2, hd, h10, hL⟩ := endLen_inv y L h
  have := le_length_of_take_eq _ _ _ h10 (by decide)
  rw [List.length_drop] at this
  omega

theorem endLen_det (y z : List Char) (L : Nat)
    (hy : endLen y = some L) (hz : z.take L = y.take L) : endLen z = some L := by
  obtain ⟨h2, hd, h10, hL⟩ := endLen_inv y L hy
  have hdz : digits2 z = digits2 y := by
    unfold digits2
    rw [takeWhile_eq_of_take_eq Char.isDigit (L - 2) (y.drop 2) (z.drop 2)
      (seg_of_take_eq y z L 2 (L - 2) hz (by omega))
      (by unfold digits2 at hL; omega)]
  unfold endLen
  rw [hdz, if_pos ⟨(take_of_take_eq y z L 2 hz (by omega)).trans h2, hd,
    (seg_of_take_eq y z L (2 + digits2 y) 10 hz (by omega)).trans h10⟩, hL]

theorem wsanLen_inv (y : List Char) (L : Nat) (h : wsanLen y = some L) :
    10 ≤ wordRun y ∧ (y.drop (wordRun y - 9)).take 10 = SAN_TAIL ∧
      L = wordRun y + 1 := by
  unfold wsanLen at h
  split_ifs at h with hc
  · injection h with h'
    exact ⟨hc.1, hc.2, h'.symm⟩

theorem wsanLen_le (y : List Char) (L : Nat) (h : wsanLen y = some L) :
    L ≤ y.length := by
  obtain ⟨hw, h10, hL⟩ := wsanLen_inv y L h
  have := le_length_of_take_eq _ _ _ h10 (by decide)
  rw [List.length_drop] at this
  omega

theorem wsanLen_det (y z : List Char) (L : Nat)
    (hy : wsanLen y = some L) (hz : z.take L = y.take L) : wsanLen z = some L := by
  obtain ⟨hw, h10, hL⟩ := wsanLen_inv y L hy
  have hwz : wordRun z = wordRun y := by
    unfold wordRun
    rw [takeWhile_eq_of_take_eq isWordChar L y z hz (by unfold wordRun at hL; omega)]
  unfold wsanLen
  rw [hwz, if_pos ⟨hw,
    (seg_of_take_eq y z L (wordRun y - 9) 10 hz (by omega)).trans h10⟩, hL]

theorem startLenWith_inv (kw : List Char → Option Nat) (y : List Char) (L : Nat)
    (h : startLenWith kw y = some L) :
    ∃ kl wl, kw (y.drop (4 + digits2 y)) = some kl ∧
      wsanLen (y.drop (4 + digits2 y + kl)) = some wl ∧
      y.take 2 = EQ2 ∧ 0 < digits2 y ∧
      (y.drop (2 + digits2 y)).take 2 = EQ2 ∧
      L = 4 + digits2 y + kl + wl := by
  unfold startLenWith at h
  split_ifs at h with hc
  split at h
  · rename_i kl hkw
    split at h
    · rename_i wl hws
      injection h with h'
      exact ⟨kl, wl, hkw, hws, hc.1, hc.2.1, hc.2.2, h'.symm⟩
    · cases h
  · cases h

theorem kw_le (kw : List Char → Option Nat) (hspec : kwSpec kw)
    (y : List Char) (kl : Nat) (h : kw y = some kl) : kl ≤ y.length := by
  rcases hspec y kl h with ⟨h7, ht⟩ | ⟨h9, ht⟩
  · subst h7; exact le_length_of_take_eq _ _ _ ht (by decide)
  · subst h9; exact le_length_of_take_eq _ _ _ ht (by decide)

theorem kw_pos (kw : List Char → Option Nat) (hspec : kwSpec kw)
    (y : List Char) (kl : Nat) (h : kw y = some kl) : 0 < kl := by
  rcases hspec y kl h with ⟨h7, _⟩ | ⟨h9, _⟩ <;> omega

theorem startLenWith_le (kw : List Char → Option Nat) (hspec : kwSpec kw)
    (y : List Char) (L : Nat) (h : startLenWith kw y = some L) : L ≤ y.length := by
  obtain ⟨kl, wl, hkw, hws, h2, hd, he2, hL⟩ := startLenWith_inv kw y L h
  have h1 := kw_le kw hspec _ kl hkw
  have hwlen := wsanLen_le _ wl hws
  obtain ⟨hw10, _, hwlEq⟩ := wsanLen_inv _ wl hws
  rw [List.length_drop] at h1 hwlen
  omega

theorem startLenWith_det (kw : List Char → Option Nat) (hdet : kwDet kw)
    (y z : List Char) (L : Nat)
    (hy : startLenWith kw y = some L) (hz : z.take L = y.take L) :
    startLenWith kw z = some L := by
  obtain ⟨kl, wl, hkw, hws, h2, hd, he2, hL⟩ := startLenWith_inv kw y L hy
  obtain ⟨hw10, _, hwlEq⟩ := wsanLen_inv _ wl hws
  have hdz : digits2 z = digits2 y := by
    unfold digits2
    rw [takeWhile_eq_of_take_eq Char.isDigit (L - 2) (y.drop 2) (z.drop 2)
      (seg_of_take_eq y z L 2 (L - 2) hz (by omega))
      (by unfold digits2 at hL; omega)]
  have hkwz : kw (z.drop (4 + digits2 y)) = some kl :=
    hdet _ _ kl hkw (seg_of_take_eq y z L (4 + digits2 y) kl hz (by omega))
  have hwsz : wsanLen (z.drop (4 + digits2 y + kl)) = some wl :=
    wsanLen_det _ _ wl hws (seg_of_take_eq y z L (4 + digits2 y + kl) wl hz (by omega))
  unfold startLenWith
  rw [hdz, if_pos ⟨(take_of_take_eq y z L 2 hz (by omega)).trans h2, hd,
    (seg_of_take_eq y z L (2 + digits2 y) 2 hz (by omega)).trans he2⟩]
  simp only [hkwz, hwsz]
  rw [hL]

/-- The three-character shape every marker match starts with: two equals
signs followed by a digit. -/
def mark3 (y : List Char) (o : Nat) : Prop :=
  y[o]? = some '=' ∧ y[o + 1]? = some '=' ∧
    ∃ c, y[o + 2]? = some c ∧ c.isDigit = true

/-- Positions strictly inside a takeWhile-run, as getElem? facts. -/
theorem digits2_getElem? (y : List Char) (i : Nat) (hi : i < digits2 y) :
    ∃ cc, y[2 + i]? = some cc ∧ cc.isDigit = true := by
  obtain ⟨cc, hcc, hp⟩ := takeWhile_getElem? Char.isDigit (y.drop 2) i hi
  exact ⟨cc, by rw [← List.getElem?_drop]; exact hcc, hp⟩

theorem endLen_head (y : List Char) (L : Nat) (h : endLen y = some L) :
    mark3 y 0 := by
  obtain ⟨h2, hd, h10, hL⟩ := endLen_inv y L h
  obtain ⟨cc, hcc, hp⟩ := digits2_getElem? y 0 hd
  exact ⟨(getElem?_take_lit y EQ2 2 0 h2 (by omega)).trans (by decide),
    (getElem?_take_lit y EQ2 2 1 h2 (by omega)).trans (by decide),
    cc, hcc, hp⟩

theorem startLenWith_head (kw : List Char → Option Nat) (y : List Char) (L : Nat)
    (h : startLenWith kw y = some L) : mark3 y 0 := by
  obtain ⟨kl, wl, hkw, hws, h2, hd, he2, hL⟩ := startLenWith_inv kw y L h
  obtain ⟨cc, hcc, hp⟩ := digits2_getElem? y 0 hd
  exact ⟨(getElem?_take_lit y EQ2 2 0 h2 (by omega)).trans (by decide),
    (getElem?_take_lit y EQ2 2 1 h2 (by omega)).trans (by decide),
    cc, hcc, hp⟩

theorem endLen_noint (y : List Char) (L o : Nat) (h : endLen y = some L)
    (ho1 : 1 ≤ o) (ho2 : o + 2 < L) : ¬ mark3 y o := by
  obtain ⟨h2, hd, h10, hL⟩ := endLen_inv y L h
  rintro ⟨m1, m2, c, m3, mc⟩
  have idx : ∀ (a b : Nat), a = b → y[a]? = y[b]? := fun a b hab => by rw [hab]
  have habort : ∀ i, i < 10 → y[2 + digits2 y + i]? = ABORT_TAIL[i]? :=
    fun i hi => getElem?_drop_take_lit y ABORT_TAIL (2 + digits2 y) 10 i h10 hi
  have hA : y[4 + digits2 y]? = some 'A' :=
    ((idx (4 + digits2 y) (2 + digits2 y + 2) (by omega)).trans
      (habort 2 (by omega))).trans (by decide)
  have hcase : o = 1 ∨ (2 ≤ o ∧ o < 2 + digits2 y) ∨ o = 2 + digits2 y ∨
      o = 3 + digits2 y ∨ (4 + digits2 y ≤ o ∧ o < 10 + digits2 y) := by omega
  rcases hcase with hc | hc | hc | hc | hc
  · obtain ⟨cc, hcc, hp⟩ := digits2_getElem? y 0 hd
    have h1 : y[o + 1]? = some cc := (idx (o + 1) (2 + 0) (by omega)).trans hcc
    have : cc = '=' := Option.some.inj (h1.symm.trans m2)
    rw [this] at hp
    exact absurd hp (by decide)
  · obtain ⟨cc, hcc, hp⟩ := digits2_getElem? y (o - 2) (by omega)
    have h1 : y[o]? = some cc := (idx o (2 + (o - 2)) (by omega)).trans hcc
    have : cc = '=' := Option.some.inj (h1.symm.trans m1)
    rw [this] at hp
    exact absurd hp (by decide)
  · have h1 : y[o + 2]? = some 'A' := (idx (o + 2) (4 + digits2 y) (by omega)).trans hA
    have : c = 'A' := Option.some.inj (m3.symm.trans h1)
    rw [this] at mc
    exact absurd mc (by decide)
  · have h1 : y[o + 1]? = some 'A' := (idx (o + 1) (4 + digits2 y) (by omega)).trans hA
    have : ('A' : Char) = '=' := Option.some.inj (h1.symm.trans m2)
    exact absurd this (by decide)
  · have h1 : y[o]? = ABORT_TAIL[o - (2 + digits2 y)]? :=
      (idx o (2 + digits2 y + (o - (2 + digits2 y))) (by omega)).trans
        (habort (o - (2 + digits2 y)) (by omega))
    have h2' := h1.symm.trans m1
    exact (by decide : ∀ j, j < 8 → 2 ≤ j → ABORT_TAIL[j]? ≠ some '=')
      (o - (2 + digits2 y)) (by omega) (by omega) h2'

theorem startLenWith_noint (kw : List Char → Option Nat) (hspec : kwSpec kw)
    (y : List Char) (L o : Nat) (h : startLenWith kw y = some L)
    (ho1 : 1 ≤ o) (ho2 : o + 2 < L) : ¬ mark3 y o := by
  obtain ⟨kl, wl, hkw, hws, h2, hd, he2, hL⟩ := startLenWith_inv kw y L h
  obtain ⟨hw10, h10, hwl⟩ := wsanLen_inv _ wl hws
  rintro ⟨m1, m2, c, m3, mc⟩
  have idx : ∀ (a b : Nat), a = b → y[a]? = y[b]? := fun a b hab => by rw [hab]
  -- the keyword region: its first character and the absence of '='
  have hEW : y[4 + digits2 y]? = some 'E' ∨ y[4 + digits2 y]? = some 'W' := by
    rcases hspec _ kl hkw with ⟨_, ht⟩ | ⟨_, ht⟩
    · exact Or.inl ((idx (4 + digits2 y) (4 + digits2 y + 0) (by omega)).trans
        ((getElem?_drop_take_lit y ERR_KW (4 + digits2 y) 7 0 ht (by omega)).trans
          (by decide)))
    · exact Or.inr ((idx (4 + digits2 y) (4 + digits2 y + 0) (by omega)).trans
        ((getElem?_drop_take_lit y WARN_KW (4 + digits2 y) 9 0 ht (by omega)).trans
          (by decide)))
  have hkwreg : ∀ j, j < kl → y[4 + digits2 y + j]? ≠ some '=' := by
    intro j hj
    rcases hspec _ kl hkw with ⟨hkl7, ht⟩ | ⟨hkl9, ht⟩
    · have := getElem?_drop_take_lit y ERR_KW (4 + digits2 y) 7 j ht (by omega)
      rw [this]
      exact (by decide : ∀ i, i < 7 → ERR_KW[i]? ≠ some '=') j (by omega)
    · have := getElem?_drop_take_lit y WARN_KW (4 + digits2 y) 9 j ht (by omega)
      rw [this]
      exact (by decide : ∀ i, i < 9 → WARN_KW[i]? ≠ some '=') j (by omega)
  have hword : ∀ j, j < wordRun (y.drop (4 + digits2 y + kl)) →
      y[4 + digits2 y + kl + j]? ≠ some '=' := by
    intro j hj hbad
    obtain ⟨cc, hcc, hp⟩ := takeWhile_getElem? isWordChar (y.drop (4 + digits2 y + kl)) j hj
    rw [List.getElem?_drop] at hcc
    have : cc = '=' := Option.some.inj (hcc.symm.trans hbad)
    rw [this] at hp
    exact absurd hp (by decide)
  have hcolon : y[4 + digits2 y + kl + wordRun (y.drop (4 + digits2 y + kl))]? = some ':' := by
    have := getElem?_drop_take_lit (y.drop (4 + digits2 y + kl)) SAN_TAIL
      (wordRun (y.drop (4 + digits2 y + kl)) - 9) 10 9 h10 (by omega)
    rw [List.getElem?_drop] at this
    exact ((idx _ (4 + digits2 y + kl + (wordRun (y.drop (4 + digits2 y + kl)) - 9 + 9))
      (by omega)).trans this).trans (by decide)
  have hne : ∀ i, 4 + digits2 y ≤ i → i < L → y[i]? ≠ some '=' := by
    intro i hi1 hi2
    rcases (by omega : i < 4 + digits2 y + kl ∨
        (4 + digits2 y + kl ≤ i ∧ i < 4 + digits2 y + kl + wordRun (y.drop (4 + digits2 y + kl))) ∨
        i = 4 + digits2 y + kl + wordRun (y.drop (4 + digits2 y + kl))) with hc | hc | hc
    · intro hbad
      exact hkwreg (i - (4 + digits2 y)) (by omega)
        (((idx (4 + digits2 y + (i - (4 + digits2 y))) i (by omega)).trans hbad))
    · intro hbad
      exact hword (i - (4 + digits2 y + kl)) (by omega)
        (((idx (4 + digits2 y + kl + (i - (4 + digits2 y + kl))) i (by omega)).trans hbad))
    · intro hbad
      have : (':' : Char) = '=' :=
        Option.some.inj ((hcolon.symm.trans (idx _ i hc.symm)).trans hbad)
      exact absurd this (by decide)
  have hcase : o = 1 ∨ (2 ≤ o ∧ o < 2 + digits2 y) ∨ o = 2 + digits2 y ∨
      o = 3 + digits2 y ∨ 4 + digits2 y ≤ o := by omega
  rcases hcase with hc | hc | hc | hc | hc
  · obtain ⟨cc, hcc, hp⟩ := digits2_getElem? y 0 hd
    have h1 : y[o + 1]? = some cc := (idx (o + 1) (2 + 0) (by omega)).trans hcc
    have : cc = '=' := Option.some.inj (h1.symm.trans m2)
    rw [this] at hp
    exact absurd hp (by decide)
  · obtain ⟨cc, hcc, hp⟩ := digits2_getElem? y (o - 2) (by omega)
    have h1 : y[o]? = some cc := (idx o (2 + (o - 2)) (by omega)).trans hcc
    have : cc = '=' := Option.some.inj (h1.symm.trans m1)
    rw [this] at hp
    exact absurd hp (by decide)
  · rcases hEW with hE | hE
    · have h1 : y[o + 2]? = some 'E' := (idx (o + 2) (4 + digits2 y) (by omega)).trans hE
      have : c = 'E' := Option.some.inj (m3.symm.trans h1)
      rw [this] at mc
      exact absurd mc (by decide)
    · have h1 : y[o + 2]? = some 'W' := (idx (o + 2) (4 + digits2 y) (by omega)).trans hE
      have : c = 'W' := Option.some.inj (m3.symm.trans h1)
      rw [this] at mc
      exact absurd mc (by decide)
  · rcases hEW with hE | hE
    · have h1 : y[o + 1]? = some 'E' := (idx (o + 1) (4 + digits2 y) (by omega)).trans hE
      have : ('E' : Char) = '=' := Option.some.inj (h1.symm.trans m2)
      exact absurd this (by decide)
    · have h1 : y[o + 1]? = some 'W' := (idx (o + 1) (4 + digits2 y) (by omega)).trans hE
      have : ('W' : Char) = '=' := Option.some.inj (h1.symm.trans m2)
      exact absurd this (by decide)
  · exact hne o hc (by omega) m1

/-- Characterization of a successful search: the matcher fires at the
reported position with the reported extent, and at no earlier position. -/
theorem searchPos_eq_some (m : List Char → Option Nat) (s : List Char) (p e : Nat)
    (h : searchPos m s = some (p, e)) :
    p ≤ e ∧ m (s.drop p) = some (e - p) ∧ ∀ j, j < p → m (s.drop j) = none := by
  induction s generalizing p e with
  | nil =>
    simp only [searchPos] at h
    cases hm : m [] with
    | some L =>
      rw [hm] at h
      simp at h
      obtain ⟨hp, he⟩ := h
      subst hp
      subst he
      exact ⟨by omega, by simpa using hm, fun j hj => by omega⟩
    | none => rw [hm] at h; simp at h
  | cons c t ih =>
    simp only [searchPos] at h
    cases hm : m (c :: t) with
    | some L =>
      rw [hm] at h
      simp at h
      obtain ⟨hp, he⟩ := h
      subst hp
      subst he
      exact ⟨by omega, by simpa using hm, fun j hj => by omega⟩
    | none =>
      rw [hm] at h
      cases hs : searchPos m t with
      | none => rw [hs] at h; simp at h
      | some pe =>
        rw [hs] at h
        obtain ⟨p', e'⟩ := pe
        simp at h
        obtain ⟨hp, he⟩ := h
        subst hp
        subst he
        obtain ⟨hpe', hm', hmin'⟩ := ih p' e' hs
        refine ⟨by omega, ?_, ?_⟩
        · rw [List.drop_succ_cons, show e' + 1 - (p' + 1) = e' - p' from by omega]
          exact hm'
        · intro j hj
          cases j with
          | zero => simpa using hm
          | succ j' =>
            rw [List.drop_succ_cons]
            exact hmin' j' (by omega)

/-- Converse: a first firing position determines the search result. -/
theorem searchPos_of (m : List Char → Option Nat) (s : List Char) (p L : Nat)
    (hmin : ∀ j, j < p → m (s.drop j) = none) (hp : m (s.drop p) = some L) :
    searchPos m s = some (p, p + L) := by
  induction p generalizing s with
  | zero =>
    rw [List.drop_zero] at hp
    cases s with
    | nil => simp [searchPos, hp]
    | cons c t => simp [searchPos, hp]
  | succ p ih =>
    have h0 : m s = none := by simpa using hmin 0 (by omega)
    cases s with
    | nil =>
      rw [List.drop_nil] at hp
      rw [hp] at h0
      cases h0
    | cons c t =>
      simp only [searchPos, h0]
      have ihh := ih t (fun j hj => by simpa using hmin (j + 1) (by omega))
        (by simpa using hp)
      rw [ihh]
      simp
      omega

/-- A marker search on s keeps its result when any text is appended: the
match at p survives (it is determined by its own characters), no earlier
in-s position can start matching (by minimality on s), and no position
j < p can start a match spanning into the appended text, because such a
match would strictly contain the two equals signs and digit opening the
match at p, and no marker match contains that shape internally. -/
theorem searchPos_append_eq (m : List Char → Option Nat)
    (hdet : ∀ y z L, m y = some L → z.take L = y.take L → m z = some L)
    (hlen : ∀ y L, m y = some L → L ≤ y.length)
    (hmin3 : ∀ y L, m y = some L → 3 ≤ L)
    (hhead : ∀ y L, m y = some L → mark3 y 0)
    (hnoint : ∀ y L o, m y = some L → 1 ≤ o → o + 2 < L → ¬ mark3 y o)
    (s u : List Char) (p e : Nat)
    (hs : searchPos m s = some (p, e)) :
    searchPos m (s ++ u) = some (p, e) := by
  obtain ⟨hpe, hm, hmin⟩ := searchPos_eq_some m s p e hs
  have hA3 : 3 ≤ e - p := hmin3 _ _ hm
  have hAlen : e - p ≤ s.length - p := by
    have := hlen _ _ hm
    rwa [List.length_drop] at this
  have hps : p + 3 ≤ s.length := by omega
  obtain ⟨c1, c2, cd, cdh, cddig⟩ := hhead _ _ hm
  rw [List.getElem?_drop] at c1 c2 cdh
  have sp0 : s[p]? = some '=' := by simpa using c1
  have sp1 : s[p + 1]? = some '=' := by simpa using c2
  have sp2 : s[p + 2]? = some cd := by simpa using cdh
  have hdropapp : ∀ j, j ≤ s.length → (s ++ u).drop j = s.drop j ++ u :=
    fun j hj => List.drop_append_of_le_length hj
  have hmatch : m ((s ++ u).drop p) = some (e - p) := by
    rw [hdropapp p (by omega)]
    refine hdet _ _ _ hm ?_
    rw [List.take_append_of_le_length (by rw [List.length_drop]; omega)]
  have hmins : ∀ j, j < p → m ((s ++ u).drop j) = none := by
    intro j hj
    cases hmj : m ((s ++ u).drop j) with
    | none => rfl
    | some L' =>
      exfalso
      rw [hdropapp j (by omega)] at hmj
      by_cases hcase : L' ≤ s.length - j
      · have hres : m (s.drop j) = some L' := by
          refine hdet _ _ _ hmj ?_
          rw [List.take_append_of_le_length (by rw [List.length_drop]; omega)]
        exact absurd ((hmin j hj).symm.trans hres) (by simp)
      · have hL' : s.length - j < L' := by omega
        refine hnoint _ _ (p - j) hmj (by omega) (by omega) ⟨?_, ?_, cd, ?_, cddig⟩
        · rw [List.getElem?_append_left (by rw [List.length_drop]; omega),
            List.getElem?_drop, show j + (p - j) = p from by omega]
          exact sp0
        · rw [List.getElem?_append_left (by rw [List.length_drop]; omega),
            List.getElem?_drop, show j + (p - j + 1) = p + 1 from by omega]
          exact sp1
        · rw [List.getElem?_append_left (by rw [List.length_drop]; omega),
            List.getElem?_drop, show j + (p - j + 2) = p + 2 from by omega]
          exact sp2
  have hres := searchPos_of m (s ++ u) p (e - p) hmins hmatch
  rwa [show p + (e - p) = e from by omega] at hres

theorem endLen_min3 (y : List Char) (L : Nat) (h : endLen y = some L) : 3 ≤ L := by
  obtain ⟨_, hd, _, hL⟩ := endLen_inv y L h
  omega

theorem startLenWith_min3 (kw : List Char → Option Nat) (hspec : kwSpec kw)
    (y : List Char) (L : Nat) (h : startLenWith kw y = some L) : 3 ≤ L := by
  obtain ⟨kl, wl, hkw, hws, _, hd, _, hL⟩ := startLenWith_inv kw y L h
  have hk := kw_pos kw hspec _ _ hkw
  omega

theorem startLenEval_det (y z : List Char) (L : Nat) (hy : startLenEval y = some L)
    (hz : z.take L = y.take L) : startLenEval z = some L :=
  startLenWith_det kwLenEval kwLenEval_det y z L hy hz

theorem startLenBatch_det (y z : List Char) (L : Nat) (hy : startLenBatch y = some L)
    (hz : z.take L = y.take L) : startLenBatch z = some L :=
  startLenWith_det kwLenBatch kwLenBatch_det y z L hy hz

/-- C8: appending a trailing suffix with no start marker, no end marker and
no indicator substring to a log holding a well-formed bounded report does
not change what either extract variant returns (the bounded tier fires on
both sides with identical positions). -/
theorem claim_C8 :
    (∀ (s u : List Char) (sp se q ep : Nat),
        searchPos startLenEval s = some (sp, se) →
        searchPos endLen s = some (q, ep) →
        sp < ep →
        searchPos startLenEval u = none →
        searchPos endLen u = none →
        (∀ ind ∈ SANITIZER_INDICATORS, findSub ind u = none) →
        extract_sanitizer_report_core (s ++ u) = extract_sanitizer_report_core s) ∧
    (∀ (s u : List Char) (sp se q ep : Nat),
        searchPos startLenBatch s = some (sp, se) →
        searchPos endLen s = some (q, ep) →
        sp < ep →
        searchPos startLenBatch u = none →
        searchPos endLen u = none →
        (∀ ind ∈ SANITIZER_ERROR_PATTERNS, findSub ind u = none) →
        extract_sanitizer_report_b_core (s ++ u) = extract_sanitizer_report_b_core s) := by
  constructor
  · intro s u sp se q ep hs he hlt hu1 hu2 hu3
    have hms : searchPos startLenEval (s ++ u) = some (sp, se) :=
      searchPos_append_eq startLenEval startLenEval_det
        (fun y L => startLenWith_le kwLenEval kwLenEval_spec y L)
        (fun y L => startLenWith_min3 kwLenEval kwLenEval_spec y L)
        (fun y L => startLenWith_head kwLenEval y L)
        (fun y L o => startLenWith_noint kwLenEval kwLenEval_spec y L o)
        s u sp se hs
    have hme : searchPos endLen (s ++ u) = some (q, ep) :=
      searchPos_append_eq endLen endLen_det endLen_le endLen_min3 endLen_head
        endLen_noint s u q ep he
    have hep : ep ≤ s.length := by
      obtain ⟨hqe, hqm, _⟩ := searchPos_eq_some endLen s q ep he
      have h1 := endLen_le _ _ hqm
      have h3 := endLen_min3 _ _ hqm
      rw [List.length_drop] at h1
      omega
    unfold extract_sanitizer_report_core
    rw [hs, he, hms, hme]
    dsimp only
    rw [if_pos hlt]
    unfold pySlice
    rw [List.take_append_of_le_length hep, if_pos hlt]
  · intro s u sp se q ep hs he hlt hu1 hu2 hu3
    have hms : searchPos startLenBatch (s ++ u) = some (sp, se) :=
      searchPos_append_eq startLenBatch startLenBatch_det
        (fun y L => startLenWith_le kwLenBatch kwLenBatch_spec y L)
        (fun y L => startLenWith_min3 kwLenBatch kwLenBatch_spec y L)
        (fun y L => startLenWith_head kwLenBatch y L)
        (fun y L o => startLenWith_noint kwLenBatch kwLenBatch_spec y L o)
        s u sp se hs
    have hme : searchPos endLen (s ++ u) = some (q, ep) :=
      searchPos_append_eq endLen endLen_det endLen_le endLen_min3 endLen_head
        endLen_noint s u q ep he
    have hep : ep ≤ s.length := by
      obtain ⟨hqe, hqm, _⟩ := searchPos_eq_some endLen s q ep he
      have h1 := endLen_le _ _ hqm
      have h3 := endLen_min3 _ _ hqm
      rw [List.length_drop] at h1
      omega
    unfold extract_sanitizer_report_b_core
    rw [hs, he, hms, hme]
    dsimp only
    rw [if_pos hlt]
    unfold pySlice
    rw [List.take_append_of_le_length hep, if_pos hlt]

/-- C8 witness: a concrete bounded report with an irrelevant suffix. -/
theorem claim_C8_witness :
    extract_sanitizer_report_core
        ("==1==ERROR: ASanitizer: x ==2==ABORTING".data ++ " done".data)
      = extract_sanitizer_report_core "==1==ERROR: ASanitizer: x ==2==ABORTING".data :=
  claim_C8.1 "==1==ERROR: ASanitizer: x ==2==ABORTING".data " done".data 0 23 26 39
    (by decide) (by decide) (by decide) (by decide) (by decide) (by decide)
